import Mathlib

/-
  Verification of the ezcb callback registry (`src/ezcb.h`).

  The registry is embedded shallowly: trigger names are NUL-free C strings
  modelled as byte lists, callback and context pointers are modelled as
  natural numbers with `0` playing the role of `NULL`, and the global
  mutable state is passed explicitly.  Heap allocation success is an
  explicit oracle parameter where a claim depends on it.
-/

namespace Ezcb

/-- Result signal returned by a callback: `EZCB_CONTINUE` or `EZCB_STOP`. -/
inductive EzcbResult where
  | cont : EzcbResult
  | stop : EzcbResult
deriving DecidableEq

/-- One registration node (`ezcb_node_t`): trigger name, priority, the
once flag, the callback pointer and the context pointer. -/
structure Node where
  trigger : List Nat
  priority : Nat
  once : Bool
  fn : Nat
  ctx : Nat
deriving DecidableEq

/-- The bucket array `ezcb_table`: one singly linked chain per bucket. -/
abbrev Table := List (List Node)

/-- The djb2-xor hash `ezcb_hash`, on the bytes of the name, in unsigned
32-bit arithmetic (`h = ((h << 5) + h) ^ (uint8_t)*s`). -/
def ezcb_hash (s : List Nat) : Nat :=
  s.foldl (fun h c => ((h * 33) % 4294967296) ^^^ (c % 256)) 5381

/-- Dynamic-mode registry state: `ezcb_table` (`none` when the pointer is
NULL, i.e. the registry is uninitialized) together with `ezcb_count`.
The bucket count `ezcb_buckets` is the length of the table. -/
structure DState where
  table : Option Table
  count : Nat
deriving DecidableEq

/-- `ezcb_init` in dynamic mode: a no-op when the table already exists,
otherwise a fresh 16-bucket table (the initial `calloc` is assumed to
succeed) and a zero count. -/
def ezcb_init (s : DState) : DState :=
  match s.table with
  | some _ => s
  | none => ⟨some (List.replicate 16 []), 0⟩

/-- The insertion scan of `ezcb_register_internal`: walk the chain and
insert the new node right before the first node that has the same trigger
name and a strictly lower priority, otherwise at the end of the chain. -/
def ezcb_insert (chain : List Node) (node : Node) : List Node :=
  match chain with
  | [] => [node]
  | n :: rest =>
    if n.trigger = node.trigger ∧ n.priority < node.priority then
      node :: n :: rest
    else
      n :: ezcb_insert rest node

/-- One step of the rehash loop of `ezcb_resize`: every node of one old
chain is pushed, in chain order, onto the head of its new bucket. -/
def moveChain (m : Nat) (acc : Table) (chain : List Node) : Table :=
  chain.foldl
    (fun a n => a.set (ezcb_hash n.trigger % m) (n :: a.getD (ezcb_hash n.trigger % m) []))
    acc

/-- `ezcb_resize`: allocate `m` empty buckets and rehash every node of
every old bucket into them by head insertion. -/
def ezcb_resize (tbl : Table) (m : Nat) : Table :=
  tbl.foldl (moveChain m) (List.replicate m [])

/-- `ezcb_register_internal` in dynamic mode.  `rOk` and `nOk` are
allocation oracles: whether the `calloc` inside `ezcb_resize` and the
`malloc` of the new node succeed.  Implicit `ezcb_init` first, then the
load-factor growth check (`ezcb_count * 4 >= ezcb_buckets * 3`) runs
before node allocation; finally the node is inserted by the priority scan
and `ezcb_count` is incremented. -/
def ezcb_register_internal (rOk nOk : Bool) (s : DState) (trigger : List Nat)
    (priority : Nat) (fn ctx : Nat) (once : Bool) : Int × DState :=
  let s1 := ezcb_init s
  match s1.table with
  | none => (-1, s1)
  | some tbl =>
    if s1.count * 4 ≥ tbl.length * 3 then
      if rOk then
        let tbl2 := ezcb_resize tbl (tbl.length * 2)
        if nOk then
          let idx := ezcb_hash trigger % tbl2.length
          (0, ⟨some (tbl2.set idx (ezcb_insert (tbl2.getD idx []) ⟨trigger, priority, once, fn, ctx⟩)),
               s1.count + 1⟩)
        else (-1, ⟨some tbl2, s1.count⟩)
      else (-1, s1)
    else
      if nOk then
        let idx := ezcb_hash trigger % tbl.length
        (0, ⟨some (tbl.set idx (ezcb_insert (tbl.getD idx []) ⟨trigger, priority, once, fn, ctx⟩)),
             s1.count + 1⟩)
      else (-1, s1)

/-- `ezcb_register`: persistent registration (`once = false`). -/
def ezcb_register (rOk nOk : Bool) (s : DState) (trigger : List Nat)
    (priority : Nat) (fn ctx : Nat) : Int × DState :=
  ezcb_register_internal rOk nOk s trigger priority fn ctx false

/-- `ezcb_register_once`: one-shot registration (`once = true`). -/
def ezcb_register_once (rOk nOk : Bool) (s : DState) (trigger : List Nat)
    (priority : Nat) (fn ctx : Nat) : Int × DState :=
  ezcb_register_internal rOk nOk s trigger priority fn ctx true

/-- The splice-out loop of `ezcb_unregister` on one chain: remove every
node matching `p`, keep the others in order, count the removals. -/
def ezcb_unreg_chain (p : Node → Bool) : List Node → List Node × Nat
  | [] => ([], 0)
  | n :: rest =>
    if p n then
      ((ezcb_unreg_chain p rest).1, (ezcb_unreg_chain p rest).2 + 1)
    else
      (n :: (ezcb_unreg_chain p rest).1, (ezcb_unreg_chain p rest).2)

/-- The `fn`/`ctx` matcher of `ezcb_unregister`: a NULL (here `0`)
argument is a wildcard, a non-NULL one must compare equal. -/
def ezcb_match (fnArg ctxArg : Nat) (n : Node) : Bool :=
  (fnArg == 0 || n.fn == fnArg) && (ctxArg == 0 || n.ctx == ctxArg)

/-- `ezcb_unregister`: returns `0` on an uninitialized registry.  With a
concrete trigger only the bucket of `hash(trigger)` is scanned and the
trigger name must additionally match exactly; with a NULL trigger every
bucket is scanned.  Returns the number removed (a non-negative C `int`,
modelled as `Nat`) and decrements `ezcb_count` once per removal. -/
def ezcb_unregister (s : DState) (trigger : Option (List Nat)) (fnArg ctxArg : Nat) :
    Nat × DState :=
  match s.table with
  | none => (0, s)
  | some tbl =>
    match trigger with
    | some t =>
      let idx := ezcb_hash t % tbl.length
      let r := ezcb_unreg_chain (fun n => decide (n.trigger = t) && ezcb_match fnArg ctxArg n)
        (tbl.getD idx [])
      (r.2, ⟨some (tbl.set idx r.1), s.count - r.2⟩)
    | none =>
      let r := tbl.foldl
        (fun acc chain =>
          ((acc.1 ++ [(ezcb_unreg_chain (ezcb_match fnArg ctxArg) chain).1]),
            acc.2 + (ezcb_unreg_chain (ezcb_match fnArg ctxArg) chain).2))
        ([], 0)
      (r.2, ⟨some r.1, s.count - r.2⟩)

/-- The bucket walk of `ezcb_trigger`: invoke each node whose trigger name
matches; a `once` node is unlinked right after its invocation whatever
signal it returned; a `stop` signal breaks the whole chain walk.  `env`
gives the signal a callback returns from `(fn, ctx, data)`.  Returns the
resulting chain, the invocation list of `(fn, ctx)` pairs in invocation
order, and the number of `once` nodes removed. -/
def ezcb_trigger_chain (env : Nat → Nat → Nat → EzcbResult) (trigger : List Nat)
    (data : Nat) : List Node → List Node × List (Nat × Nat) × Nat
  | [] => ([], [], 0)
  | n :: rest =>
    if n.trigger = trigger then
      if n.once then
        if env n.fn n.ctx data = EzcbResult.stop then
          (rest, [(n.fn, n.ctx)], 1)
        else
          ((ezcb_trigger_chain env trigger data rest).1,
           (n.fn, n.ctx) :: (ezcb_trigger_chain env trigger data rest).2.1,
           (ezcb_trigger_chain env trigger data rest).2.2 + 1)
      else
        if env n.fn n.ctx data = EzcbResult.stop then
          (n :: rest, [(n.fn, n.ctx)], 0)
        else
          (n :: (ezcb_trigger_chain env trigger data rest).1,
           (n.fn, n.ctx) :: (ezcb_trigger_chain env trigger data rest).2.1,
           (ezcb_trigger_chain env trigger data rest).2.2)
    else
      (n :: (ezcb_trigger_chain env trigger data rest).1,
       (ezcb_trigger_chain env trigger data rest).2.1,
       (ezcb_trigger_chain env trigger data rest).2.2)

/-- `ezcb_trigger`: a no-op on an uninitialized registry; otherwise walk
the bucket of `hash(trigger) mod buckets`.  Returns the new registry state
and the invocation list. -/
def ezcb_trigger (env : Nat → Nat → Nat → EzcbResult) (s : DState)
    (trigger : List Nat) (data : Nat) : DState × List (Nat × Nat) :=
  match s.table with
  | none => (s, [])
  | some tbl =>
    let idx := ezcb_hash trigger % tbl.length
    let r := ezcb_trigger_chain env trigger data (tbl.getD idx [])
    (⟨some (tbl.set idx r.1), s.count - r.2.2⟩, r.2.1)

/-- `ezcb_deinit`: early return when already uninitialized, otherwise
release every chain and the table, reset the count, and return to the
uninitialized state. -/
def ezcb_deinit (s : DState) : DState :=
  match s.table with
  | none => s
  | some _ => ⟨none, 0⟩

/-- Bounded-mode (`EZCB_NO_MALLOC`) registry state: the fixed bucket
table (`none` when uninitialized), the number of slots on the free list
`ezcb_free_list`, and `ezcb_count`.  The identity of the pooled slots does
not affect any observable behaviour, so the free list is modelled by its
length. -/
structure BState where
  table : Option Table
  free : Nat
  count : Nat
deriving DecidableEq

/-- `ezcb_init` with `EZCB_NO_MALLOC`: `maxBuckets` empty buckets and a
free list holding all `maxNodes` slots. -/
def ezcb_init_static (maxBuckets maxNodes : Nat) (s : BState) : BState :=
  match s.table with
  | some _ => s
  | none => ⟨some (List.replicate maxBuckets []), maxNodes, 0⟩

/-- `ezcb_register_internal` with `EZCB_NO_MALLOC`: the trigger-length
guard (`strlen(trigger) >= EZCB_MAX_TRIGGER_LENGTH`) runs before the
free-list pop; an empty free list fails; otherwise the name is copied into
the node (copying a name shorter than the buffer reproduces the name), the
node is inserted by the same priority scan, the free list shrinks by one
slot and `ezcb_count` grows by one. -/
def ezcb_register_internal_static (maxLen maxBuckets maxNodes : Nat) (s : BState)
    (trigger : List Nat) (priority : Nat) (fn ctx : Nat) (once : Bool) : Int × BState :=
  let s1 := ezcb_init_static maxBuckets maxNodes s
  match s1.table with
  | none => (-1, s1)
  | some tbl =>
    if maxLen ≤ trigger.length then (-1, s1)
    else if s1.free = 0 then (-1, s1)
    else
      let idx := ezcb_hash trigger % tbl.length
      (0, ⟨some (tbl.set idx (ezcb_insert (tbl.getD idx []) ⟨trigger, priority, once, fn, ctx⟩)),
           s1.free - 1, s1.count + 1⟩)

/-- ISR event-queue state: the producer index `ezcb_evt_head`, the
consumer index `ezcb_evt_tail`, and the event array `ezcb_evt_queue`,
modelled as a function from slot index to a `(trigger, data)` pair. -/
structure IsrState where
  head : Nat
  tail : Nat
  queue : Nat → List Nat × Nat

/-- The number of pending events of the queue: how many iterations the
`ezcb_dispatch` loop makes before `tail` catches up with `head`. -/
def ezcb_pending (qsize head tail : Nat) : Nat :=
  (qsize + head - tail) % qsize

/-- `ezcb_trigger_isr`: fail with `-1` when advancing the producer index
would collide with the consumer index, otherwise store the event at the
`head` slot and advance `head` only. -/
def ezcb_trigger_isr (qsize : Nat) (s : IsrState) (trigger : List Nat) (data : Nat) :
    Int × IsrState :=
  let next := (s.head + 1) % qsize
  if next = s.tail then (-1, s)
  else (0, ⟨next, s.tail, fun j => if j = s.head then (trigger, data) else s.queue j⟩)

/-- The slots read by the `ezcb_dispatch` loop: `k` consecutive reads
starting at `tail`, the index advancing modulo the queue size. -/
def drainAux (qsize : Nat) (q : Nat → List Nat × Nat) : Nat → Nat → List (List Nat × Nat)
  | 0, _ => []
  | k + 1, tail => q tail :: drainAux qsize q k ((tail + 1) % qsize)

/-- All events `ezcb_dispatch` pops, in pop order: the loop runs until
`tail` reaches `head`, i.e. exactly `ezcb_pending` times. -/
def drainEvents (qsize : Nat) (s : IsrState) : List (List Nat × Nat) :=
  drainAux qsize s.queue (ezcb_pending qsize s.head s.tail) s.tail

/-- `ezcb_dispatch`: pop every pending event in FIFO order and call
`ezcb_trigger` once per popped pair; afterwards the consumer index has
caught up with the producer index. -/
def ezcb_dispatch (env : Nat → Nat → Nat → EzcbResult) (reg : DState)
    (qsize : Nat) (s : IsrState) : DState × IsrState :=
  ((drainEvents qsize s).foldl (fun r e => (ezcb_trigger env r e.1 e.2).1) reg,
   ⟨s.head, s.head, s.queue⟩)

/-- Boolean form of the spec's chain invariant: within one chain, any
later node with the same trigger name has a priority no greater than an
earlier one (non-increasing priority per trigger name). -/
def chainOrdered : List Node → Bool
  | [] => true
  | n :: rest =>
    rest.all (fun m => !(m.trigger == n.trigger) || decide (m.priority ≤ n.priority))
      && chainOrdered rest

/-- The chain invariant over every bucket of a dynamic-mode state. -/
def tableOrdered (s : DState) : Bool :=
  (s.table.getD []).all chainOrdered

/-- A registration sequence reaching a resize: two callbacks under
trigger `[116]` with priorities 5 then 3 (callback pointers 1 and 2), ten
distinct one-byte fillers, and a thirteenth registration that meets the
load-factor threshold and makes `ezcb_register_internal` resize. -/
def c1Regs : List (List Nat × Nat × Nat) :=
  [([116], 5, 1), ([116], 3, 2), ([1], 0, 10), ([2], 0, 10), ([3], 0, 10),
   ([4], 0, 10), ([5], 0, 10), ([6], 0, 10), ([7], 0, 10), ([8], 0, 10),
   ([9], 0, 10), ([10], 0, 10), ([99], 0, 10)]

/-- The registry state reached by running `c1Regs` through
`ezcb_register_internal` (every allocation succeeding) from the
uninitialized state. -/
def c1State : DState :=
  c1Regs.foldl (fun s e => (ezcb_register_internal true true s e.1 e.2.1 e.2.2 0 false).2)
    ⟨none, 0⟩

/-- The state after only the first twelve registrations of `c1Regs`,
i.e. just before the register call whose growth check fires. -/
def c1StateBefore : DState :=
  (c1Regs.take 12).foldl
    (fun s e => (ezcb_register_internal true true s e.1 e.2.1 e.2.2 0 false).2)
    ⟨none, 0⟩

/-- Number of occurrences of one node value across all buckets. -/
def tableCount (v : Node) (tbl : Table) : Nat :=
  (tbl.map (List.count v)).sum

/-- `k` registrations of the identical `(trigger, priority, fn, ctx)`
tuple, starting from a freshly initialized dynamic-mode registry, every
allocation succeeding. -/
def regRepeat (t : List Nat) (p fnv ctxv : Nat) : Nat → DState
  | 0 => ezcb_init ⟨none, 0⟩
  | k + 1 => (ezcb_register_internal true true (regRepeat t p fnv ctxv k) t p fnv ctxv false).2

/-- `getD` after `set` at the same (in-range) index reads the value written. -/
theorem getD_set_self {α : Type} (l : List α) (i : Nat) (x d : α) (h : i < l.length) :
    (l.set i x).getD i d = x := by
  simp [List.getD_eq_getElem?_getD, List.getElem?_set_self h]

/-- `getD` after `set` at a different index is unchanged. -/
theorem getD_set_ne {α : Type} (l : List α) (i j : Nat) (x d : α) (h : i ≠ j) :
    (l.set i x).getD j d = l.getD j d := by
  simp [List.getD_eq_getElem?_getD, List.getElem?_set_ne h]

/-- Writing back what an in-range slot already holds changes nothing. -/
theorem set_getD_self {α : Type} :
    ∀ (l : List α) (i : Nat) (d : α), i < l.length → l.set i (l.getD i d) = l
  | [], i, _, h => by simp at h
  | a :: l, 0, d, _ => by simp [List.getD]
  | a :: l, i + 1, d, h => by
    simp only [List.getD_cons_succ, List.set_cons_succ, List.cons.injEq, true_and]
    exact set_getD_self l i d (by simpa using h)

/-- `ezcb_trigger_chain` walks past every node whose callback does not
stop: its invocation list is the matching nodes, in chain order. -/
theorem ezcb_trigger_chain_cont (env : Nat → Nat → Nat → EzcbResult) (t : List Nat) (d : Nat) :
    ∀ l : List Node, (∀ m ∈ l, m.trigger = t → env m.fn m.ctx d = EzcbResult.cont) →
      (ezcb_trigger_chain env t d l).2.1
        = (l.filter (fun m => decide (m.trigger = t))).map (fun m => (m.fn, m.ctx))
  | [], _ => rfl
  | n :: l, h => by
    have ih := ezcb_trigger_chain_cont env t d l (fun m hm => h m (List.mem_cons_of_mem n hm))
    by_cases hm : n.trigger = t
    · have hc := h n (List.mem_cons_self n l) hm
      cases ho : n.once <;> simp [ezcb_trigger_chain, hm, ho, hc, ih]
    · simp [ezcb_trigger_chain, hm, ih]

/-- Splitting the chain walk at a prefix none of whose matching nodes
stops: results compose by concatenation and addition. -/
theorem ezcb_trigger_chain_append (env : Nat → Nat → Nat → EzcbResult) (t : List Nat) (d : Nat) :
    ∀ pre rest : List Node,
      (∀ m ∈ pre, m.trigger = t → env m.fn m.ctx d = EzcbResult.cont) →
      ezcb_trigger_chain env t d (pre ++ rest)
        = ((ezcb_trigger_chain env t d pre).1 ++ (ezcb_trigger_chain env t d rest).1,
           (ezcb_trigger_chain env t d pre).2.1 ++ (ezcb_trigger_chain env t d rest).2.1,
           (ezcb_trigger_chain env t d pre).2.2 + (ezcb_trigger_chain env t d rest).2.2)
  | [], rest, _ => by simp [ezcb_trigger_chain]
  | n :: pre, rest, h => by
    have ih := ezcb_trigger_chain_append env t d pre rest
      (fun m hm => h m (List.mem_cons_of_mem n hm))
    by_cases hm : n.trigger = t
    · have hc := h n (List.mem_cons_self n pre) hm
      cases ho : n.once <;>
        simp [ezcb_trigger_chain, hm, ho, hc, ih, Nat.add_assoc, Nat.add_comm 1]
    · simp [ezcb_trigger_chain, hm, ih]

/-- C2 — During a `Trigger(name, data)` call, once an invoked callback
returns the stop signal, no later node of the same bucket chain is
invoked in that call, whatever its trigger name (hash-colliding foreign
names included), while earlier non-matching nodes were skipped without
being treated as a stop: the invocation list is exactly the matching
prefix nodes followed by the stopping node, and nothing from the rest of
the chain. -/
theorem ezcb_stop_halts_bucket_walk (env : Nat → Nat → Nat → EzcbResult) (s : DState)
    (tbl : Table) (t : List Nat) (d : Nat) (pre post : List Node) (n : Node)
    (hs : s.table = some tbl)
    (hchain : tbl.getD (ezcb_hash t % tbl.length) [] = pre ++ n :: post)
    (hpre : ∀ m ∈ pre, m.trigger = t → env m.fn m.ctx d = EzcbResult.cont)
    (hn : n.trigger = t) (hstop : env n.fn n.ctx d = EzcbResult.stop) :
    (ezcb_trigger env s t d).2
      = (pre.filter (fun m => decide (m.trigger = t))).map (fun m => (m.fn, m.ctx))
          ++ [(n.fn, n.ctx)] := by
  have hhead : (ezcb_trigger_chain env t d (n :: post)).2.1 = [(n.fn, n.ctx)] := by
    cases ho : n.once <;> simp [ezcb_trigger_chain, hn, ho, hstop]
  simp only [ezcb_trigger, hs]
  rw [hchain, ezcb_trigger_chain_append env t d pre (n :: post) hpre]
  simp [hhead, ezcb_trigger_chain_cont env t d pre hpre]

/-- Closed witness for C2: a one-bucket registry where a foreign-name
node precedes the stopping node and two further nodes (one foreign, one
matching) follow it; only the stopping node fires. -/
theorem ezcb_stop_halts_bucket_walk_witness :
    (ezcb_trigger (fun f _ _ => if f = 2 then EzcbResult.stop else EzcbResult.cont)
        ⟨some [[⟨[7], 9, false, 1, 0⟩, ⟨[5], 5, false, 2, 0⟩,
                ⟨[9], 1, false, 3, 0⟩, ⟨[5], 0, false, 4, 0⟩]], 4⟩
        [5] 0).2
      = [(2, 0)] :=
  ezcb_stop_halts_bucket_walk _ _ _ _ _ [⟨[7], 9, false, 1, 0⟩] [⟨[9], 1, false, 3, 0⟩, ⟨[5], 0, false, 4, 0⟩]
    ⟨[5], 5, false, 2, 0⟩ rfl (by decide) (by decide) (by decide) (by decide)

/-- C3 — a `once` registration that is reached by a trigger call is
invoked exactly once and unlinked immediately, whatever signal its
callback returns: the resulting bucket no longer holds that node (in
both the stop and the continue branch), the removal count includes it,
so it is absent from the registry for every later trigger call. -/
theorem ezcb_once_removed_after_fire (env : Nat → Nat → Nat → EzcbResult) (s : DState)
    (tbl : Table) (t : List Nat) (d : Nat) (pre post : List Node) (n : Node)
    (hs : s.table = some tbl)
    (hchain : tbl.getD (ezcb_hash t % tbl.length) [] = pre ++ n :: post)
    (hpre : ∀ m ∈ pre, m.trigger = t → env m.fn m.ctx d = EzcbResult.cont)
    (hn : n.trigger = t) (ho : n.once = true) :
    ezcb_trigger env s t d
      = (⟨some (tbl.set (ezcb_hash t % tbl.length)
            ((ezcb_trigger_chain env t d pre).1 ++
              (if env n.fn n.ctx d = EzcbResult.stop then post
               else (ezcb_trigger_chain env t d post).1))),
          s.count - ((ezcb_trigger_chain env t d pre).2.2 +
            (if env n.fn n.ctx d = EzcbResult.stop then 1
             else (ezcb_trigger_chain env t d post).2.2 + 1))⟩,
         (ezcb_trigger_chain env t d pre).2.1 ++ (n.fn, n.ctx) ::
           (if env n.fn n.ctx d = EzcbResult.stop then []
            else (ezcb_trigger_chain env t d post).2.1)) := by
  simp only [ezcb_trigger, hs]
  rw [hchain, ezcb_trigger_chain_append env t d pre (n :: post) hpre]
  cases hr : env n.fn n.ctx d <;> simp [ezcb_trigger_chain, hn, ho, hr]

/-- Closed witness for C3: a single `once` node whose callback returns
the continue signal fires once and leaves the bucket empty. -/
theorem ezcb_once_removed_after_fire_witness :
    ezcb_trigger (fun _ _ _ => EzcbResult.cont) ⟨some [[⟨[5], 5, true, 2, 0⟩]], 1⟩ [5] 0
      = (⟨some [[]], 0⟩, [(2, 0)]) :=
  ezcb_once_removed_after_fire (fun _ _ _ => EzcbResult.cont)
    ⟨some [[⟨[5], 5, true, 2, 0⟩]], 1⟩ [[⟨[5], 5, true, 2, 0⟩]] [5] 0 [] [] ⟨[5], 5, true, 2, 0⟩
    rfl (by decide) (by decide) (by decide) (by decide)

/-- C8 — lifecycle behaviour: a second `ezcb_init` is a no-op; on an
uninitialized registry `ezcb_unregister` returns 0 and changes nothing,
`ezcb_trigger` invokes nothing and changes nothing, `ezcb_deinit` leaves
the registry uninitialized (for every starting state); and a register
call on the uninitialized registry behaves exactly as on the
freshly-initialized one (implicit initialization). -/
theorem ezcb_uninitialized_ops (s : DState) (tr : Option (List Nat)) (t : List Nat)
    (p fnv ctxv d : Nat) (o rOk nOk : Bool) (env : Nat → Nat → Nat → EzcbResult) :
    ezcb_init (ezcb_init s) = ezcb_init s
    ∧ ezcb_unregister ⟨none, 0⟩ tr fnv ctxv = (0, ⟨none, 0⟩)
    ∧ ezcb_trigger env ⟨none, 0⟩ t d = (⟨none, 0⟩, [])
    ∧ (ezcb_deinit s).table = none
    ∧ ezcb_register_internal rOk nOk ⟨none, 0⟩ t p fnv ctxv o
        = ezcb_register_internal rOk nOk (ezcb_init ⟨none, 0⟩) t p fnv ctxv o := by
  refine ⟨?_, rfl, rfl, ?_, ?_⟩
  · cases h : s.table <;> simp [ezcb_init, h]
  · cases h : s.table <;> simp [ezcb_deinit, h]
  · simp [ezcb_register_internal, ezcb_init]

/-- The splice-out loop keeps exactly the non-matching nodes in order and
counts the matching ones. -/
theorem ezcb_unreg_chain_eq (p : Node → Bool) :
    ∀ l : List Node, ezcb_unreg_chain p l = (l.filter (fun n => !(p n)), l.countP p)
  | [] => rfl
  | n :: l => by
    by_cases h : p n <;>
      simp [ezcb_unreg_chain, h, ezcb_unreg_chain_eq p l, List.countP_cons, List.filter_cons]

/-- The all-buckets loop of `ezcb_unregister` filters every bucket and
sums the per-bucket removal counts. -/
theorem ezcb_unreg_fold (q : Node → Bool) (tbl : Table) :
    ∀ (acc : Table) (k : Nat),
      tbl.foldl
        (fun acc chain =>
          ((acc.1 ++ [(ezcb_unreg_chain q chain).1]),
            acc.2 + (ezcb_unreg_chain q chain).2))
        (acc, k)
        = (acc ++ tbl.map (fun c => c.filter (fun n => !(q n))),
           k + (tbl.map (List.countP q)).sum) := by
  induction tbl with
  | nil => intro acc k; simp
  | cons c tbl ih =>
    intro acc k
    simp only [List.foldl_cons, List.map_cons, List.sum_cons]
    rw [ih]
    simp [ezcb_unreg_chain_eq, List.append_assoc, Nat.add_assoc]

/-- C5 — `ezcb_unregister` removes a node exactly when every non-NULL
argument matches it: with a concrete trigger only that trigger's bucket
is rewritten (to the nodes failing the match, in order, so each node is
judged exactly once) and the exact per-bucket match count is returned;
with a NULL trigger every bucket is filtered the same way; with all
three arguments NULL every registration is removed and the total count
returned.  The count may be zero. -/
theorem ezcb_unregister_wildcard (s : DState) (tbl : Table) (t : List Nat)
    (fnA ctxA fnB ctxB : Nat) (hs : s.table = some tbl) :
    (ezcb_unregister s (some t) fnA ctxA
      = ((tbl.getD (ezcb_hash t % tbl.length) []).countP
            (fun n => decide (n.trigger = t) && ezcb_match fnA ctxA n),
         ⟨some (tbl.set (ezcb_hash t % tbl.length)
            ((tbl.getD (ezcb_hash t % tbl.length) []).filter
              (fun n => !(decide (n.trigger = t) && ezcb_match fnA ctxA n)))),
          s.count - (tbl.getD (ezcb_hash t % tbl.length) []).countP
            (fun n => decide (n.trigger = t) && ezcb_match fnA ctxA n)⟩))
    ∧ (ezcb_unregister s none fnB ctxB
      = ((tbl.map (List.countP (ezcb_match fnB ctxB))).sum,
         ⟨some (tbl.map (fun c => c.filter (fun n => !(ezcb_match fnB ctxB n)))),
          s.count - (tbl.map (List.countP (ezcb_match fnB ctxB))).sum⟩))
    ∧ (ezcb_unregister s none 0 0
      = ((tbl.map List.length).sum,
         ⟨some (tbl.map (fun _ => ([] : List Node))),
          s.count - (tbl.map List.length).sum⟩)) := by
  have hm0 : ∀ n : Node, ezcb_match 0 0 n = true := fun n => by simp [ezcb_match]
  refine ⟨?_, ?_, ?_⟩
  · simp [ezcb_unregister, hs, ezcb_unreg_chain_eq]
  · simp [ezcb_unregister, hs, ezcb_unreg_fold (ezcb_match fnB ctxB) tbl [] 0]
  · have hlen : tbl.map (List.countP (ezcb_match 0 0)) = tbl.map List.length :=
      List.map_congr_left (fun c _ => List.countP_eq_length.mpr (fun a _ => hm0 a))
    have hfil : tbl.map (fun c => c.filter (fun n => !(ezcb_match 0 0 n)))
        = tbl.map (fun _ => ([] : List Node)) :=
      List.map_congr_left (fun c _ => by simp [hm0])
    simp [ezcb_unregister, hs, ezcb_unreg_fold (ezcb_match 0 0) tbl [] 0, hlen, hfil]

/-- Closed witness for C5: a two-bucket registry; removing with a
concrete trigger, with only a context matcher, and with all wildcards. -/
theorem ezcb_unregister_wildcard_witness :
    (ezcb_unregister ⟨some [[⟨[3], 1, false, 1, 4⟩, ⟨[7], 2, false, 1, 4⟩], [⟨[1], 0, false, 2, 9⟩]], 3⟩
        (some [3]) 0 0
      = (1, ⟨some [[⟨[7], 2, false, 1, 4⟩], [⟨[1], 0, false, 2, 9⟩]], 2⟩))
    ∧ (ezcb_unregister ⟨some [[⟨[3], 1, false, 1, 4⟩, ⟨[7], 2, false, 1, 4⟩], [⟨[1], 0, false, 2, 9⟩]], 3⟩
        none 0 9
      = (1, ⟨some [[⟨[3], 1, false, 1, 4⟩, ⟨[7], 2, false, 1, 4⟩], []], 2⟩))
    ∧ (ezcb_unregister ⟨some [[⟨[3], 1, false, 1, 4⟩, ⟨[7], 2, false, 1, 4⟩], [⟨[1], 0, false, 2, 9⟩]], 3⟩
        none 0 0
      = (3, ⟨some [[], []], 0⟩)) :=
  ezcb_unregister_wildcard
    ⟨some [[⟨[3], 1, false, 1, 4⟩, ⟨[7], 2, false, 1, 4⟩], [⟨[1], 0, false, 2, 9⟩]], 3⟩
    [[⟨[3], 1, false, 1, 4⟩, ⟨[7], 2, false, 1, 4⟩], [⟨[1], 0, false, 2, 9⟩]]
    [3] 0 0 0 9 rfl

/-- `ezcb_init` in bounded mode is a no-op on an initialized registry. -/
theorem ezcb_init_static_of_some (maxB maxN : Nat) (s : BState) (tbl : Table)
    (hs : s.table = some tbl) : ezcb_init_static maxB maxN s = s := by
  simp [ezcb_init_static, hs]

/-- C7 — bounded mode: a trigger name whose length reaches the
configured maximum is rejected with an error before any node is taken
from the free list and independently of free-list availability, the
whole state unchanged; a name one byte shorter is accepted whenever the
free list is non-empty. -/
theorem ezcb_bounded_name_length (maxLen maxB maxN : Nat) (s : BState) (tbl : Table)
    (trigger : List Nat) (p fnv ctxv : Nat) (o : Bool) (hs : s.table = some tbl) :
    (maxLen ≤ trigger.length →
      ezcb_register_internal_static maxLen maxB maxN s trigger p fnv ctxv o = (-1, s))
    ∧ (trigger.length + 1 = maxLen → 0 < s.free →
      ezcb_register_internal_static maxLen maxB maxN s trigger p fnv ctxv o
        = (0, ⟨some (tbl.set (ezcb_hash trigger % tbl.length)
            (ezcb_insert (tbl.getD (ezcb_hash trigger % tbl.length) [])
              ⟨trigger, p, o, fnv, ctxv⟩)), s.free - 1, s.count + 1⟩)) := by
  have hinit := ezcb_init_static_of_some maxB maxN s tbl hs
  constructor
  · intro hlen
    simp [ezcb_register_internal_static, hinit, hs, hlen]
  · intro hlen hfree
    simp [ezcb_register_internal_static, hinit, hs,
      (show ¬ maxLen ≤ trigger.length by omega),
      (show ¬ s.free = 0 by omega)]

/-- Closed witness for C7 with a maximum trigger length of 4: the
four-byte name is rejected with the registry untouched, the three-byte
name is accepted. -/
theorem ezcb_bounded_name_length_witness :
    (ezcb_register_internal_static 4 2 3 ⟨some [[], []], 3, 0⟩ [1, 2, 3, 4] 5 6 7 false
      = (-1, ⟨some [[], []], 3, 0⟩))
    ∧ (ezcb_register_internal_static 4 2 3 ⟨some [[], []], 3, 0⟩ [1, 2, 3] 5 6 7 false
      = (0, ⟨some [[], [⟨[1, 2, 3], 5, false, 6, 7⟩]], 2, 1⟩)) :=
  ⟨(ezcb_bounded_name_length 4 2 3 ⟨some [[], []], 3, 0⟩ [[], []] [1, 2, 3, 4] 5 6 7 false rfl).1
      (by decide),
   (ezcb_bounded_name_length 4 2 3 ⟨some [[], []], 3, 0⟩ [[], []] [1, 2, 3] 5 6 7 false rfl).2
      (by decide) (by decide)⟩

/-- The producer index may not advance onto the consumer index: the
enqueue-fails condition is exactly \x22the queue already holds one event
fewer than its size\x22. -/
theorem ezcb_queue_full_iff (qsize h t : Nat) (hQ : 0 < qsize) (hh : h < qsize)
    (ht : t < qsize) :
    ((h + 1) % qsize = t ↔ ezcb_pending qsize h t = qsize - 1) := by
  have e1 : (h + 1) % qsize = if h + 1 = qsize then 0 else h + 1 := by
    by_cases he : h + 1 = qsize
    · rw [if_pos he, he, Nat.mod_self]
    · rw [if_neg he, Nat.mod_eq_of_lt (by omega)]
  have e2 : ezcb_pending qsize h t = if t ≤ h then h - t else qsize + h - t := by
    unfold ezcb_pending
    rcases le_or_lt t h with hle | hgt
    · rw [if_pos hle, Nat.add_sub_assoc hle, Nat.add_mod_left, Nat.mod_eq_of_lt (by omega)]
    · rw [if_neg (by omega), Nat.mod_eq_of_lt (by omega)]
  rw [e1, e2]
  split_ifs <;> omega

/-- C9 — the usable capacity of the deferred queue is one less than its
configured size: `ezcb_trigger_isr` returns the queue-full error exactly
when `qsize - 1` events are pending undrained (the slot that would make
the producer index equal the consumer index is never filled), and in
that case the queue state is left unchanged. -/
theorem ezcb_queue_usable_capacity (qsize : Nat) (s : IsrState) (t : List Nat) (d : Nat)
    (hQ : 0 < qsize) (hh : s.head < qsize) (ht : s.tail < qsize) :
    ((ezcb_trigger_isr qsize s t d).1 = -1
      ↔ ezcb_pending qsize s.head s.tail = qsize - 1)
    ∧ (ezcb_pending qsize s.head s.tail = qsize - 1 →
      ezcb_trigger_isr qsize s t d = (-1, s)) := by
  have hiff := ezcb_queue_full_iff qsize s.head s.tail hQ hh ht
  constructor
  · constructor
    · intro h1
      by_contra hp
      have hfull : ¬ (s.head + 1) % qsize = s.tail := fun hf => hp (hiff.mp hf)
      simp only [ezcb_trigger_isr, if_neg hfull] at h1
      exact absurd h1 (by decide)
    · intro hp
      simp only [ezcb_trigger_isr, if_pos (hiff.mpr hp)]
  · intro hp
    simp only [ezcb_trigger_isr, if_pos (hiff.mpr hp)]

/-- Closed witness for C9: a 4-slot queue with 3 pending events rejects
a fourth enqueue and keeps its state. -/
theorem ezcb_queue_usable_capacity_witness :
    ((ezcb_trigger_isr 4 ⟨3, 0, fun _ => ([], 0)⟩ [1] 0).1 = -1
      ↔ ezcb_pending 4 3 0 = 3)
    ∧ (ezcb_pending 4 3 0 = 3 →
      ezcb_trigger_isr 4 ⟨3, 0, fun _ => ([], 0)⟩ [1] 0 = (-1, ⟨3, 0, fun _ => ([], 0)⟩)) :=
  ezcb_queue_usable_capacity 4 ⟨3, 0, fun _ => ([], 0)⟩ [1] 0 (by decide) (by decide) (by decide)

/-- `tableCount` distributes over a cons of buckets. -/
theorem tableCount_cons (v : Node) (c : List Node) (tbl : Table) :
    tableCount v (c :: tbl) = c.count v + tableCount v tbl := by
  simp [tableCount]

/-- `tableCount` over all-empty buckets is zero. -/
theorem tableCount_replicate_nil (v : Node) :
    ∀ m, tableCount v (List.replicate m ([] : List Node)) = 0
  | 0 => rfl
  | m + 1 => by
    simp [List.replicate_succ, tableCount_cons, tableCount_replicate_nil v m]

/-- Pushing one node onto an in-range bucket raises the table-wide
occurrence count of exactly that node value. -/
theorem tableCount_set_cons :
    ∀ (tbl : Table) (i : Nat) (n v : Node), i < tbl.length →
      tableCount v (tbl.set i (n :: tbl.getD i []))
        = tableCount v tbl + if n == v then 1 else 0
  | [], i, n, v, h => by simp at h
  | c :: tbl, 0, n, v, _ => by
    simp [tableCount_cons, List.count_cons]
    omega
  | c :: tbl, i + 1, n, v, h => by
    simp only [List.set_cons_succ, List.getD_cons_succ, tableCount_cons]
    rw [tableCount_set_cons tbl i n v (by simpa using h)]
    omega

/-- `moveChain` on the empty chain. -/
theorem moveChain_nil (m : Nat) (acc : Table) : moveChain m acc [] = acc := rfl

/-- `moveChain` moves the head node, then the rest. -/
theorem moveChain_cons (m : Nat) (acc : Table) (n : Node) (chain : List Node) :
    moveChain m acc (n :: chain)
      = moveChain m (acc.set (ezcb_hash n.trigger % m)
          (n :: acc.getD (ezcb_hash n.trigger % m) [])) chain := by
  simp [moveChain]

/-- Rehashing one chain never changes the bucket count. -/
theorem moveChain_length (m : Nat) :
    ∀ (chain : List Node) (acc : Table), (moveChain m acc chain).length = acc.length
  | [], _ => rfl
  | n :: chain, acc => by
    rw [moveChain_cons, moveChain_length m chain _, List.length_set]

/-- Rehashing one chain adds exactly its nodes to the target table. -/
theorem moveChain_count (m : Nat) (hm : 0 < m) (v : Node) :
    ∀ (chain : List Node) (acc : Table), acc.length = m →
      tableCount v (moveChain m acc chain) = tableCount v acc + chain.count v
  | [], acc, _ => by simp [moveChain_nil]
  | n :: chain, acc, hlen => by
    have hidx : ezcb_hash n.trigger % m < acc.length := by
      rw [hlen]; exact Nat.mod_lt _ hm
    rw [moveChain_cons,
      moveChain_count m hm v chain _ (by rw [List.length_set, hlen]),
      tableCount_set_cons acc _ n v hidx, List.count_cons]
    omega

/-- The whole rehash loop never changes the bucket count. -/
theorem foldl_moveChain_length (m : Nat) :
    ∀ (tbl acc : Table), (tbl.foldl (moveChain m) acc).length = acc.length
  | [], _ => rfl
  | c :: tbl, acc => by
    rw [List.foldl_cons, foldl_moveChain_length m tbl _, moveChain_length]

/-- The whole rehash loop adds exactly the nodes of the old table. -/
theorem foldl_moveChain_count (m : Nat) (hm : 0 < m) (v : Node) :
    ∀ (tbl acc : Table), acc.length = m →
      tableCount v (tbl.foldl (moveChain m) acc)
        = tableCount v acc + tableCount v tbl
  | [], acc, _ => by simp [tableCount]
  | c :: tbl, acc, hlen => by
    rw [List.foldl_cons,
      foldl_moveChain_count m hm v tbl _ (by rw [moveChain_length, hlen]),
      moveChain_count m hm v c acc hlen, tableCount_cons]
    omega

/-- `ezcb_resize` produces exactly the requested number of buckets. -/
theorem ezcb_resize_length (tbl : Table) (m : Nat) : (ezcb_resize tbl m).length = m := by
  unfold ezcb_resize
  rw [foldl_moveChain_length, List.length_replicate]

/-- `ezcb_resize` rehashes every node: each node value occurs in the new
table exactly as often as in the old one. -/
theorem ezcb_resize_count (tbl : Table) (m : Nat) (hm : 0 < m) (v : Node) :
    tableCount v (ezcb_resize tbl m) = tableCount v tbl := by
  unfold ezcb_resize
  rw [foldl_moveChain_count m hm v tbl (List.replicate m []) (by simp),
    tableCount_replicate_nil, Nat.zero_add]

/-- `ezcb_init` in dynamic mode is a no-op on an initialized registry. -/
theorem ezcb_init_of_some (s : DState) (tbl : Table) (hs : s.table = some tbl) :
    ezcb_init s = s := by
  simp [ezcb_init, hs]

/-- Register step, growth branch with a failing bucket-array
allocation: the error is reported and the whole state kept, whatever
the node-allocation oracle. -/
theorem ezcb_register_step_growfail (s : DState) (tbl : Table) (t : List Nat)
    (p fnv ctxv : Nat) (o : Bool) (hs : s.table = some tbl)
    (hge : tbl.length * 3 ≤ s.count * 4) (nOk : Bool) :
    ezcb_register_internal false nOk s t p fnv ctxv o = (-1, s) := by
  simp [ezcb_register_internal, ezcb_init_of_some s tbl hs, hs, hge]

/-- Register step, successful growth branch: the table is resized to
twice its bucket count and the node inserted into the rehashed table. -/
theorem ezcb_register_step_grow (s : DState) (tbl : Table) (t : List Nat)
    (p fnv ctxv : Nat) (o : Bool) (hs : s.table = some tbl)
    (hge : tbl.length * 3 ≤ s.count * 4) :
    ezcb_register_internal true true s t p fnv ctxv o
      = (0, ⟨some ((ezcb_resize tbl (tbl.length * 2)).set
            (ezcb_hash t % (tbl.length * 2))
            (ezcb_insert ((ezcb_resize tbl (tbl.length * 2)).getD
              (ezcb_hash t % (tbl.length * 2)) []) ⟨t, p, o, fnv, ctxv⟩)),
          s.count + 1⟩) := by
  simp [ezcb_register_internal, ezcb_init_of_some s tbl hs, hs, hge, ezcb_resize_length]

/-- Register step below the growth threshold: no resize happens,
whatever the resize oracle; the node is inserted into its bucket. -/
theorem ezcb_register_step_nogrow (s : DState) (tbl : Table) (t : List Nat)
    (p fnv ctxv : Nat) (o : Bool) (hs : s.table = some tbl)
    (hlt : s.count * 4 < tbl.length * 3) (rOk : Bool) :
    ezcb_register_internal rOk true s t p fnv ctxv o
      = (0, ⟨some (tbl.set (ezcb_hash t % tbl.length)
          (ezcb_insert (tbl.getD (ezcb_hash t % tbl.length) []) ⟨t, p, o, fnv, ctxv⟩)),
          s.count + 1⟩) := by
  simp [ezcb_register_internal, ezcb_init_of_some s tbl hs, hs,
    (show ¬ tbl.length * 3 ≤ s.count * 4 by omega)]

/-- An in-range slot of an all-`[]` table reads `[]`. -/
theorem getD_replicate_lt {α : Type} (m j : Nat) (a d : α) (h : j < m) :
    (List.replicate m a).getD j d = a := by
  simp [List.getD_eq_getElem?_getD, List.getElem?_replicate, h]

/-- Writing `[]` into an all-`[]` table changes nothing. -/
theorem set_replicate_nil (b i : Nat) :
    (List.replicate b ([] : List Node)).set i [] = List.replicate b [] := by
  by_cases h : i < b
  · have hset := set_getD_self (List.replicate b ([] : List Node)) i [] (by simpa using h)
    rw [getD_replicate_lt b i ([] : List Node) [] h] at hset
    exact hset
  · exact List.set_eq_of_length_le (by simpa using Nat.le_of_not_lt h)

/-- A run of equal elements absorbs one more equal element from the right. -/
theorem replicate_snoc {α : Type} (v : α) (l : List α) :
    ∀ k : Nat, List.replicate k v ++ v :: l = List.replicate (k + 1) v ++ l
  | 0 => rfl
  | k + 1 => by
    rw [List.replicate_succ, List.cons_append, replicate_snoc v l k,
      List.replicate_succ (n := k + 1), List.cons_append]

/-- Inserting a node into a chain of copies of itself appends it: the
priority-scan condition `priority < priority` never fires. -/
theorem ezcb_insert_replicate (n : Node) :
    ∀ k, ezcb_insert (List.replicate k n) n = List.replicate (k + 1) n
  | 0 => rfl
  | k + 1 => by
    rw [List.replicate_succ, ezcb_insert]
    simp [Nat.lt_irrefl, ezcb_insert_replicate n k, List.replicate_succ]

/-- Triggering a chain of `k` copies of a matching, non-once,
continue-returning node invokes it `k` times and removes nothing. -/
theorem ezcb_trigger_chain_replicate (env : Nat → Nat → Nat → EzcbResult) (t : List Nat)
    (d : Nat) (n : Node) (hn : n.trigger = t) (ho : n.once = false)
    (hc : env n.fn n.ctx d = EzcbResult.cont) :
    ∀ k, ezcb_trigger_chain env t d (List.replicate k n)
      = (List.replicate k n, List.replicate k (n.fn, n.ctx), 0)
  | 0 => rfl
  | k + 1 => by
    rw [List.replicate_succ]
    simp [ezcb_trigger_chain, hn, ho, hc,
      ezcb_trigger_chain_replicate env t d n hn ho hc k, List.replicate_succ]

/-- The rehash loop over all-empty buckets does nothing. -/
theorem foldl_moveChain_empty (m : Nat) :
    ∀ (l : Table) (acc : Table), (∀ c ∈ l, c = []) → l.foldl (moveChain m) acc = acc
  | [], _, _ => rfl
  | c :: l, acc, h => by
    rw [List.foldl_cons, h c (List.mem_cons_self c l), moveChain_nil]
    exact foldl_moveChain_empty m l acc (fun x hx => h x (List.mem_cons_of_mem c hx))

/-- The rehash loop over a table that is empty except for one bucket
reduces to rehashing that bucket. -/
theorem foldl_moveChain_set_empty (m : Nat) (c : List Node) :
    ∀ (b i : Nat) (acc : Table), i < b →
      ((List.replicate b ([] : List Node)).set i c).foldl (moveChain m) acc
        = moveChain m acc c
  | 0, _, _, h => by omega
  | b + 1, 0, acc, _ => by
    rw [List.replicate_succ, List.set_cons_zero, List.foldl_cons]
    exact foldl_moveChain_empty m _ _ (fun x hx => List.eq_of_mem_replicate hx)
  | b + 1, i + 1, acc, h => by
    rw [List.replicate_succ, List.set_cons_succ, List.foldl_cons, moveChain_nil]
    exact foldl_moveChain_set_empty m c b i acc (by omega)

/-- Rehashing a chain of copies of one node prepends them all onto the
node's bucket. -/
theorem moveChain_replicate (m : Nat) (v : Node) :
    ∀ (k : Nat) (acc : Table), ezcb_hash v.trigger % m < acc.length →
      moveChain m acc (List.replicate k v)
        = acc.set (ezcb_hash v.trigger % m)
            (List.replicate k v ++ acc.getD (ezcb_hash v.trigger % m) [])
  | 0, acc, h => by
    rw [List.replicate_zero, moveChain_nil, List.nil_append, set_getD_self _ _ _ h]
  | k + 1, acc, h => by
    rw [List.replicate_succ, moveChain_cons,
      moveChain_replicate m v k _ (by rw [List.length_set]; exact h),
      List.set_set, getD_set_self _ _ _ _ h, replicate_snoc]
    simp [List.replicate_succ]

/-- Resizing a table that holds only `k` copies of one node, all in one
bucket, yields the table holding them in the node's new bucket. -/
theorem ezcb_resize_single (b m i k : Nat) (v : Node) (hi : i < b) (hm : 0 < m) :
    ezcb_resize ((List.replicate b ([] : List Node)).set i (List.replicate k v)) m
      = (List.replicate m ([] : List Node)).set (ezcb_hash v.trigger % m)
          (List.replicate k v) := by
  unfold ezcb_resize
  rw [foldl_moveChain_set_empty m (List.replicate k v) b i _ hi,
    moveChain_replicate m v k _ (by simpa using Nat.mod_lt _ hm),
    getD_replicate_lt m _ _ _ (Nat.mod_lt _ hm), List.append_nil]

/-- A table that is empty except for one in-range bucket holds exactly
that bucket's nodes. -/
theorem tableCount_set_empty (v : Node) (c : List Node) :
    ∀ (b i : Nat), i < b →
      tableCount v ((List.replicate b ([] : List Node)).set i c) = c.count v
  | 0, _, h => by omega
  | b + 1, 0, _ => by
    rw [List.replicate_succ, List.set_cons_zero, tableCount_cons,
      tableCount_replicate_nil, Nat.add_zero]
  | b + 1, i + 1, h => by
    rw [List.replicate_succ, List.set_cons_succ, tableCount_cons,
      tableCount_set_empty v c b i (by omega)]
    simp

/-- With both allocation oracles succeeding, a dynamic-mode register
call always reports success. -/
theorem ezcb_register_internal_ok (s : DState) (t : List Nat) (p fnv ctxv : Nat) (o : Bool) :
    (ezcb_register_internal true true s t p fnv ctxv o).1 = 0 := by
  obtain ⟨tb, c⟩ := s
  cases tb with
  | none =>
    simp only [ezcb_register_internal, ezcb_init]
    split <;> rfl
  | some tbl =>
    simp only [ezcb_register_internal, ezcb_init]
    split <;> rfl

/-- Closed form of `k` identical registrations: a table, of some bucket
count reached by the doublings so far, that is empty except for the
node's bucket, which holds `k` copies of the node; the live count is
`k`. -/
theorem regRepeat_closed_form (t : List Nat) (p fnv ctxv : Nat) :
    ∀ k, ∃ b, 0 < b ∧
      regRepeat t p fnv ctxv k
        = ⟨some ((List.replicate b ([] : List Node)).set (ezcb_hash t % b)
            (List.replicate k (⟨t, p, false, fnv, ctxv⟩ : Node))), k⟩
  | 0 => ⟨16, by decide, by
      rw [List.replicate_zero, set_replicate_nil]
      rfl⟩
  | k + 1 => by
    obtain ⟨b, hb, hstate⟩ := regRepeat_closed_form t p fnv ctxv k
    have hidx : ezcb_hash t % b < b := Nat.mod_lt _ hb
    have hTlen : ((List.replicate b ([] : List Node)).set (ezcb_hash t % b)
        (List.replicate k (⟨t, p, false, fnv, ctxv⟩ : Node))).length = b := by
      simp
    by_cases hcond : b * 3 ≤ k * 4
    · refine ⟨b * 2, by omega, ?_⟩
      rw [regRepeat, hstate]
      rw [ezcb_register_step_grow _ _ t p fnv ctxv false rfl (by rw [hTlen]; exact hcond)]
      rw [hTlen, ezcb_resize_single b (b * 2) _ k _ hidx (by omega)]
      have hidx2 : ezcb_hash t % (b * 2)
          < ((List.replicate (b * 2) ([] : List Node)).length) := by
        simpa using Nat.mod_lt _ (show 0 < b * 2 by omega)
      rw [getD_set_self _ _ _ _ (by simpa using hidx2), ezcb_insert_replicate,
        List.set_set]
    · refine ⟨b, hb, ?_⟩
      rw [regRepeat, hstate]
      rw [ezcb_register_step_nogrow _ _ t p fnv ctxv false rfl
        (by dsimp only; rw [hTlen]; omega) true]
      rw [hTlen, getD_set_self _ _ _ _ (by simpa using hidx), ezcb_insert_replicate,
        List.set_set]

/-- C10 — registrations are never deduplicated: registering the same
`(trigger, priority, fn, ctx)` tuple `k` times from a fresh registry
succeeds every time (allocation permitting), leaves `k` live
registrations and `k` distinct copies of the node in the table, and one
matching trigger call whose callback keeps returning the continue signal
invokes that callback exactly `k` times. -/
theorem ezcb_register_no_dedup (k : Nat) (t : List Nat) (p fnv ctxv d : Nat)
    (env : Nat → Nat → Nat → EzcbResult) (henv : env fnv ctxv d = EzcbResult.cont) :
    (ezcb_register_internal true true (regRepeat t p fnv ctxv k) t p fnv ctxv false).1 = 0
    ∧ (regRepeat t p fnv ctxv k).count = k
    ∧ tableCount ⟨t, p, false, fnv, ctxv⟩ ((regRepeat t p fnv ctxv k).table.getD []) = k
    ∧ (ezcb_trigger env (regRepeat t p fnv ctxv k) t d).2
        = List.replicate k (fnv, ctxv) := by
  obtain ⟨b, hb, hstate⟩ := regRepeat_closed_form t p fnv ctxv k
  have hidx : ezcb_hash t % b < b := Nat.mod_lt _ hb
  refine ⟨ezcb_register_internal_ok _ _ _ _ _ _, ?_, ?_, ?_⟩
  · rw [hstate]
  · rw [hstate]
    simp only [Option.getD_some]
    rw [tableCount_set_empty _ _ b _ hidx, List.count_replicate_self]
  · rw [hstate]
    have hTlen : ((List.replicate b ([] : List Node)).set (ezcb_hash t % b)
        (List.replicate k (⟨t, p, false, fnv, ctxv⟩ : Node))).length = b := by
      simp
    simp only [ezcb_trigger, hTlen]
    rw [getD_set_self _ _ _ _ (by simpa using hidx)]
    rw [ezcb_trigger_chain_replicate env t d ⟨t, p, false, fnv, ctxv⟩ rfl rfl henv k]

/-- Closed witness for C10: two identical registrations of
`([5], 7, fn 3, ctx 4)` and one trigger call invoking callback 3 twice. -/
theorem ezcb_register_no_dedup_witness :
    (ezcb_register_internal true true (regRepeat [5] 7 3 4 2) [5] 7 3 4 false).1 = 0
    ∧ (regRepeat [5] 7 3 4 2).count = 2
    ∧ tableCount ⟨[5], 7, false, 3, 4⟩ ((regRepeat [5] 7 3 4 2).table.getD []) = 2
    ∧ (ezcb_trigger (fun _ _ _ => EzcbResult.cont) (regRepeat [5] 7 3 4 2) [5] 0).2
        = List.replicate 2 (3, 4) :=
  ezcb_register_no_dedup 2 [5] 7 3 4 0 (fun _ _ _ => EzcbResult.cont) rfl

/-- C6 — dynamic-mode growth: a register call doubles the bucket table
exactly when `count * 4 >= buckets * 3`, with the growth check before
node allocation (a failed resize returns the error whatever the node
allocation oracle says, with the registry — table, registrations and
live count — fully intact); a successful resize doubles the bucket
count and rehashes every existing node (occurrence counts preserved)
before the new node is inserted; below the threshold no resize happens
whatever the resize oracle says. -/
theorem ezcb_dynamic_growth (s : DState) (tbl : Table) (t : List Nat) (p fnv ctxv : Nat)
    (o : Bool) (hs : s.table = some tbl) :
    (tbl.length * 3 ≤ s.count * 4 → ∀ nOk,
      ezcb_register_internal false nOk s t p fnv ctxv o = (-1, s))
    ∧ (tbl.length * 3 ≤ s.count * 4 →
      ezcb_register_internal true true s t p fnv ctxv o
        = (0, ⟨some ((ezcb_resize tbl (tbl.length * 2)).set
              (ezcb_hash t % (tbl.length * 2))
              (ezcb_insert ((ezcb_resize tbl (tbl.length * 2)).getD
                (ezcb_hash t % (tbl.length * 2)) []) ⟨t, p, o, fnv, ctxv⟩)),
            s.count + 1⟩))
    ∧ (s.count * 4 < tbl.length * 3 → ∀ rOk,
      ezcb_register_internal rOk true s t p fnv ctxv o
        = (0, ⟨some (tbl.set (ezcb_hash t % tbl.length)
            (ezcb_insert (tbl.getD (ezcb_hash t % tbl.length) []) ⟨t, p, o, fnv, ctxv⟩)),
            s.count + 1⟩))
    ∧ (∀ m, (ezcb_resize tbl m).length = m)
    ∧ (∀ v m, 0 < m → tableCount v (ezcb_resize tbl m) = tableCount v tbl) := by
  exact ⟨fun hge nOk => ezcb_register_step_growfail s tbl t p fnv ctxv o hs hge nOk,
    fun hge => ezcb_register_step_grow s tbl t p fnv ctxv o hs hge,
    fun hlt rOk => ezcb_register_step_nogrow s tbl t p fnv ctxv o hs hlt rOk,
    fun m => ezcb_resize_length tbl m,
    fun v m hm => ezcb_resize_count tbl m hm v⟩

/-- Closed witness for C6: a two-bucket registry with three live
registrations (load factor above the threshold): the failed-resize path
returns the error with the state intact, the successful path yields the
doubled-and-rehashed table, and the resize of that table keeps its
length and node counts. -/
theorem ezcb_dynamic_growth_witness :
    (ezcb_register_internal false true ⟨some [[], []], 3⟩ [9] 1 2 3 false
      = (-1, ⟨some [[], []], 3⟩))
    ∧ (ezcb_register_internal true true ⟨some [[], []], 3⟩ [9] 1 2 3 false
      = (0, ⟨some ((ezcb_resize [[], []] 4).set (ezcb_hash [9] % 4)
          (ezcb_insert ((ezcb_resize [[], []] 4).getD (ezcb_hash [9] % 4) [])
            ⟨[9], 1, false, 2, 3⟩)), 4⟩))
    ∧ ((ezcb_resize [[], []] 4).length = 4)
    ∧ (tableCount ⟨[9], 1, false, 2, 3⟩ (ezcb_resize [[], []] 4)
        = tableCount ⟨[9], 1, false, 2, 3⟩ [[], []]) :=
  ⟨(ezcb_dynamic_growth ⟨some [[], []], 3⟩ [[], []] [9] 1 2 3 false rfl).1 (by decide) true,
   (ezcb_dynamic_growth ⟨some [[], []], 3⟩ [[], []] [9] 1 2 3 false rfl).2.1 (by decide),
   (ezcb_dynamic_growth ⟨some [[], []], 3⟩ [[], []] [9] 1 2 3 false rfl).2.2.2.1 4,
   (ezcb_dynamic_growth ⟨some [[], []], 3⟩ [[], []] [9] 1 2 3 false rfl).2.2.2.2
     ⟨[9], 1, false, 2, 3⟩ 4 (by decide)⟩

/-- C4 — deferred queue behaviour: while fewer than the maximum number
of pending events are queued, `ezcb_trigger_isr` succeeds, advancing only
the producer index and writing only the `head` slot; at the maximum
pending count it returns the queue-full error and leaves the state
unchanged; and enqueueing three events into an empty queue then draining
pops them in FIFO order, `ezcb_dispatch` calling `ezcb_trigger` once per
popped pair, first to last. -/
theorem ezcb_deferred_queue_fifo (qsize : Nat) (s s3 : IsrState) (t1 t2 t3 : List Nat)
    (d1 d2 d3 : Nat) (env : Nat → Nat → Nat → EzcbResult) (reg : DState)
    (hQ : 0 < qsize) (hh : s.head < qsize) (ht : s.tail < qsize)
    (hs3 : s3 = (ezcb_trigger_isr qsize
      (ezcb_trigger_isr qsize (ezcb_trigger_isr qsize s t1 d1).2 t2 d2).2 t3 d3).2) :
    (ezcb_pending qsize s.head s.tail + 1 < qsize →
      ezcb_trigger_isr qsize s t1 d1
        = (0, ⟨(s.head + 1) % qsize, s.tail,
               fun j => if j = s.head then (t1, d1) else s.queue j⟩))
    ∧ (ezcb_pending qsize s.head s.tail + 1 = qsize →
      ezcb_trigger_isr qsize s t1 d1 = (-1, s))
    ∧ (s.head = 0 → s.tail = 0 → 4 ≤ qsize →
      (ezcb_trigger_isr qsize s t1 d1).1 = 0
      ∧ (ezcb_trigger_isr qsize (ezcb_trigger_isr qsize s t1 d1).2 t2 d2).1 = 0
      ∧ (ezcb_trigger_isr qsize
          (ezcb_trigger_isr qsize (ezcb_trigger_isr qsize s t1 d1).2 t2 d2).2 t3 d3).1 = 0
      ∧ drainEvents qsize s3 = [(t1, d1), (t2, d2), (t3, d3)]
      ∧ ezcb_dispatch env reg qsize s3
          = ((ezcb_trigger env
               ((ezcb_trigger env ((ezcb_trigger env reg t1 d1).1) t2 d2).1) t3 d3).1,
             ⟨s3.head, s3.head, s3.queue⟩)) := by
  obtain ⟨sh, st, sq⟩ := s
  have hh' : sh < qsize := hh
  have ht' : st < qsize := ht
  have hiff := ezcb_queue_full_iff qsize sh st hQ hh' ht'
  refine ⟨?_, ?_, ?_⟩
  · intro hlt
    have hlt' : ezcb_pending qsize sh st + 1 < qsize := hlt
    have hne : ¬ (sh + 1) % qsize = st := fun hf => by
      have := hiff.mp hf
      omega
    simp only [ezcb_trigger_isr, if_neg hne]
  · intro heq
    have heq' : ezcb_pending qsize sh st + 1 = qsize := heq
    have hfull : (sh + 1) % qsize = st := hiff.mpr (by omega)
    simp only [ezcb_trigger_isr, if_pos hfull]
  · intro h0 ht0 h4
    have h0' : sh = 0 := h0
    have ht0' : st = 0 := ht0
    subst h0' ht0' hs3
    have m1 : (0 + 1) % qsize = 1 := Nat.mod_eq_of_lt (by omega)
    have m2 : (1 + 1) % qsize = 2 := Nat.mod_eq_of_lt (by omega)
    have m3 : (2 + 1) % qsize = 3 := Nat.mod_eq_of_lt (by omega)
    have e1 : ezcb_trigger_isr qsize ⟨0, 0, sq⟩ t1 d1
        = (0, ⟨1, 0, fun j => if j = 0 then (t1, d1) else sq j⟩) := by
      simp only [ezcb_trigger_isr, m1]
      rw [if_neg (by omega)]
    have e2 : ezcb_trigger_isr qsize (ezcb_trigger_isr qsize ⟨0, 0, sq⟩ t1 d1).2 t2 d2
        = (0, ⟨2, 0, fun j => if j = 1 then (t2, d2)
            else if j = 0 then (t1, d1) else sq j⟩) := by
      rw [e1]
      simp only [ezcb_trigger_isr, m2]
      rw [if_neg (by omega)]
    have e3 : ezcb_trigger_isr qsize
        (ezcb_trigger_isr qsize (ezcb_trigger_isr qsize ⟨0, 0, sq⟩ t1 d1).2 t2 d2).2 t3 d3
        = (0, ⟨3, 0, fun j => if j = 2 then (t3, d3) else if j = 1 then (t2, d2)
            else if j = 0 then (t1, d1) else sq j⟩) := by
      rw [e2]
      simp only [ezcb_trigger_isr, m3]
      rw [if_neg (by omega)]
    have hp3 : ezcb_pending qsize 3 0 = 3 := by
      unfold ezcb_pending
      rw [Nat.sub_zero, Nat.add_mod_left, Nat.mod_eq_of_lt (by omega)]
    have hdrain : drainEvents qsize (ezcb_trigger_isr qsize
        (ezcb_trigger_isr qsize (ezcb_trigger_isr qsize ⟨0, 0, sq⟩ t1 d1).2 t2 d2).2
        t3 d3).2 = [(t1, d1), (t2, d2), (t3, d3)] := by
      rw [e3]
      simp [drainEvents, drainAux, hp3, m1, m2]
    refine ⟨by rw [e1], by rw [e2], by rw [e3], hdrain, ?_⟩
    simp only [ezcb_dispatch, hdrain]
    simp [List.foldl_cons, List.foldl_nil]

/-- Closed witness for C4: the default 16-slot queue, starting empty,
with three concrete events. -/
theorem ezcb_deferred_queue_fifo_witness :
    ((ezcb_pending 16 0 0 + 1 < 16 →
      ezcb_trigger_isr 16 ⟨0, 0, fun _ => ([], 0)⟩ [1] 5
        = (0, ⟨1 % 16, 0, fun j => if j = 0 then ([1], 5) else ([], 0)⟩))
    ∧ (ezcb_pending 16 0 0 + 1 = 16 →
      ezcb_trigger_isr 16 ⟨0, 0, fun _ => ([], 0)⟩ [1] 5 = (-1, ⟨0, 0, fun _ => ([], 0)⟩))
    ∧ ((0 : Nat) = 0 → (0 : Nat) = 0 → 4 ≤ 16 →
      (ezcb_trigger_isr 16 ⟨0, 0, fun _ => ([], 0)⟩ [1] 5).1 = 0
      ∧ (ezcb_trigger_isr 16 (ezcb_trigger_isr 16 ⟨0, 0, fun _ => ([], 0)⟩ [1] 5).2 [2] 6).1 = 0
      ∧ (ezcb_trigger_isr 16 (ezcb_trigger_isr 16
          (ezcb_trigger_isr 16 ⟨0, 0, fun _ => ([], 0)⟩ [1] 5).2 [2] 6).2 [3] 7).1 = 0
      ∧ drainEvents 16 ((ezcb_trigger_isr 16 (ezcb_trigger_isr 16
          (ezcb_trigger_isr 16 ⟨0, 0, fun _ => ([], 0)⟩ [1] 5).2 [2] 6).2 [3] 7).2)
          = [([1], 5), ([2], 6), ([3], 7)]
      ∧ ezcb_dispatch (fun _ _ _ => EzcbResult.cont) ⟨none, 0⟩ 16
          ((ezcb_trigger_isr 16 (ezcb_trigger_isr 16
            (ezcb_trigger_isr 16 ⟨0, 0, fun _ => ([], 0)⟩ [1] 5).2 [2] 6).2 [3] 7).2)
          = ((ezcb_trigger (fun _ _ _ => EzcbResult.cont)
               ((ezcb_trigger (fun _ _ _ => EzcbResult.cont)
                 ((ezcb_trigger (fun _ _ _ => EzcbResult.cont) ⟨none, 0⟩ [1] 5).1) [2] 6).1)
               [3] 7).1,
             ⟨((ezcb_trigger_isr 16 (ezcb_trigger_isr 16
                 (ezcb_trigger_isr 16 ⟨0, 0, fun _ => ([], 0)⟩ [1] 5).2 [2] 6).2 [3] 7).2).head,
              ((ezcb_trigger_isr 16 (ezcb_trigger_isr 16
                 (ezcb_trigger_isr 16 ⟨0, 0, fun _ => ([], 0)⟩ [1] 5).2 [2] 6).2 [3] 7).2).head,
              ((ezcb_trigger_isr 16 (ezcb_trigger_isr 16
                 (ezcb_trigger_isr 16 ⟨0, 0, fun _ => ([], 0)⟩ [1] 5).2 [2] 6).2 [3] 7).2).queue⟩))) :=
  ezcb_deferred_queue_fifo 16 ⟨0, 0, fun _ => ([], 0)⟩
    ((ezcb_trigger_isr 16 (ezcb_trigger_isr 16
      (ezcb_trigger_isr 16 ⟨0, 0, fun _ => ([], 0)⟩ [1] 5).2 [2] 6).2 [3] 7).2)
    [1] [2] [3] 5 6 7 (fun _ _ _ => EzcbResult.cont) ⟨none, 0⟩
    (by decide) (by decide) (by decide) rfl

/-- C1 — evaluation of the resize scenario: after twelve registrations
the per-bucket same-trigger priority order holds and trigger `[116]`
fires callback 1 (priority 5) before callback 2 (priority 3); the
thirteenth registration meets the load-factor threshold, `ezcb_resize`
rehashes every chain by head insertion and thereby reverses it, so the
order invariant is now violated and the same trigger call fires the
priority-3 callback before the priority-5 one. -/
theorem ezcb_resize_reverses_priority_order :
    tableOrdered c1StateBefore = true
    ∧ (ezcb_trigger (fun _ _ _ => EzcbResult.cont) c1StateBefore [116] 0).2 = [(1, 0), (2, 0)]
    ∧ tableOrdered c1State = false
    ∧ (ezcb_trigger (fun _ _ _ => EzcbResult.cont) c1State [116] 0).2 = [(2, 0), (1, 0)] := by
  decide

end Ezcb
